import Mathlib

/-
Verification of the fuzmon sampling engine (shallow embedding).

The definitions below are translated from the Rust sources of the
repository: src/src/procinfo.rs, src/src/run.rs, src/src/stacktrace.rs and
src/src/log.rs.  Conventions of the embedding:

* Rust HashMap values are modelled as association lists (one iteration
  order is fixed; the claims proved here do not depend on hash order).
* f32/f64 arithmetic is modelled over the rationals; the machine types
  u32/u64/i32 are modelled as Nat/Int, with Nat subtraction matching the
  saturating_sub used by the source.
* Reads of /proc, ptrace calls and the wall clock are effects; they enter
  the embedding as explicit oracle arguments (an Option result models a
  fallible read).  Timestamp strings are omitted from the records, being
  pure wall-clock output.
-/

/-- procinfo.rs FdEvent: fd plus optional old and new paths. -/
structure FdEvent where
  fd : Int
  old_path : Option String
  new_path : Option String
deriving DecidableEq

/-- log.rs FdLogEvent: the expanded per-log-entry event record. -/
structure FdLogEvent where
  fd : Int
  event : String
  path : String
deriving DecidableEq

/-- log.rs MemoryInfo. -/
structure MemoryInfo where
  rss_kb : Nat
  vsz_kb : Nat
  swap_kb : Nat
deriving DecidableEq

/-- log.rs ThreadInfo; stack traces are lists of rendered lines. -/
structure ThreadInfo where
  tid : Nat
  stacktrace : Option (List String)
  python_stacktrace : Option (List String)
deriving DecidableEq

/-- log.rs LogEntry (timestamp omitted: pure wall-clock output). -/
structure LogEntry where
  pid : Nat
  process_name : String
  cpu_time_percent : ℚ
  memory : MemoryInfo
  cmdline : Option String
  env : Option String
  fd_events : Option (List FdLogEvent)
  threads : List ThreadInfo
deriving DecidableEq

/-- procinfo.rs ProcState; the fds HashMap is an association list. -/
structure ProcState where
  prev_proc_time : Nat
  prev_total_time : Nat
  fds : List (Int × String)
  pending_fd_events : List FdEvent
  metadata_written : Bool
deriving DecidableEq

/-- Default::default() for ProcState (states.entry(pid).or_default()). -/
def ProcState.init : ProcState :=
  { prev_proc_time := 0, prev_total_time := 0, fds := [],
    pending_fd_events := [], metadata_written := false }

/-- procinfo.rs compute_cpu_percent, with f32 arithmetic over ℚ. -/
def computeCpuPercent (delta_proc delta_total num_cpus : Nat) : ℚ :=
  if delta_total = 0 then 0
  else 100 * (delta_proc : ℚ) / (delta_total : ℚ) * (num_cpus : ℚ)

/-- procinfo.rs get_proc_usage.  The /proc reads are oracles: statRead is
the read_proc_stat result (utime, stime), totalRead the read_total_cpu_time
result, rssRead the rss_kb result; numCpus is num_cpus::get().  Returns the
optional (cpu, rss) sample together with the updated state. -/
def getProcUsage (statRead : Option (Nat × Nat)) (totalRead : Option Nat)
    (rssRead : Option Nat) (numCpus : Nat) (state : ProcState) :
    Option (ℚ × Nat) × ProcState :=
  match statRead with
  | none => (none, state)
  | some (u, s) =>
    match totalRead with
    | none => (none, state)
    | some total =>
      let procTotal := u + s
      if state.prev_total_time = 0 then
        (none, { state with prev_proc_time := procTotal, prev_total_time := total })
      else
        let deltaProc := procTotal - state.prev_proc_time
        let deltaTotal := total - state.prev_total_time
        let state' := { state with prev_proc_time := procTotal, prev_total_time := total }
        if deltaTotal = 0 then
          (none, state')
        else
          (some (computeCpuPercent deltaProc deltaTotal numCpus, rssRead.getD 0), state')

/-- run.rs process_pid: cpu substituted for a suppressed sample
(usage.map(|u| u.0).unwrap_or(0.0)). -/
def cpuOfUsage (usage : Option (ℚ × Nat)) : ℚ :=
  (usage.map Prod.fst).getD 0

/-- run.rs should_skip_pid.  procName is the process_name(pid) oracle and
matchesIgnore the compiled ignore-regex test. -/
def shouldSkipPid (targetPid : Option Nat) (procName : Option String)
    (matchesIgnore : String → Bool) (recordCpuPercentThreshold : ℚ)
    (cpuPercent : ℚ) : Bool :=
  if targetPid.isNone then
    (match procName with
     | some name => matchesIgnore name
     | none => false) ||
    decide (cpuPercent < recordCpuPercentThreshold)
  else
    false

/-- Association-list lookup for the fds HashMap (current.get(fd)). -/
def fdLookup (fd : Int) : List (Int × String) → Option String
  | [] => none
  | (k, v) :: rest => if k = fd then some v else fdLookup fd rest

/-- procinfo.rs detect_fd_events.  current is the read_fd_map(pid) oracle;
the first pass walks the stored map, the second the current map, and the
stored map is then replaced by current. -/
def detectFdEvents (current : List (Int × String)) (state : ProcState) :
    List FdEvent × ProcState :=
  let events :=
    state.fds.filterMap (fun p =>
      match fdLookup p.1 current with
      | none => some { fd := p.1, old_path := some p.2, new_path := none }
      | some newPath =>
        if newPath = p.2 then none
        else some { fd := p.1, old_path := some p.2, new_path := some newPath }) ++
    current.filterMap (fun p =>
      if (fdLookup p.1 state.fds).isSome then none
      else some { fd := p.1, old_path := none, new_path := some p.2 })
  (events, { state with fds := current })

/-- run.rs process_pid: expansion of one pending FdEvent into log events
(close for the old path, then open for the new path). -/
def expandFdEvent (ev : FdEvent) : List FdLogEvent :=
  (match ev.old_path with
   | some oldPath => [{ fd := ev.fd, event := "close", path := oldPath }]
   | none => []) ++
  (match ev.new_path with
   | some newPath => [{ fd := ev.fd, event := "open", path := newPath }]
   | none => [])

/-- Replay semantics of one FdEvent over an fd map: an event with a new
path rebinds the fd, an event without one closes it. -/
def applyFdEvent (m : List (Int × String)) (e : FdEvent) : List (Int × String) :=
  match e.new_path with
  | some p => (e.fd, p) :: m.filter (fun q => decide (q.1 ≠ e.fd))
  | none => m.filter (fun q => decide (q.1 ≠ e.fd))

/-- Replaying a sequence of FdEvents over a map. -/
def replayFdEvents (m : List (Int × String)) (evts : List FdEvent) :
    List (Int × String) :=
  evts.foldl applyFdEvent m

/-- The per-fd transition table the spec states for the FD differ
(close for fds only in the previous map, open for fds only in the current
map, replace for fds in both with different paths, nothing otherwise);
written from the spec wording as the comparison target for the
differencing claim. -/
def specFdTransition (prev cur : List (Int × String)) (fd : Int) : List FdEvent :=
  match fdLookup fd prev, fdLookup fd cur with
  | some o, none => [{ fd := fd, old_path := some o, new_path := none }]
  | none, some n => [{ fd := fd, old_path := none, new_path := some n }]
  | some o, some n =>
    if n = o then [] else [{ fd := fd, old_path := some o, new_path := some n }]
  | none, none => []

/-- Oracle bundle for the /proc reads done while assembling a LogEntry:
process_name, vsz_kb, swap_kb, cmdline and environ for the pid. -/
structure ProcReads where
  procName : Option String
  vszKb : Option Nat
  swapKb : Option Nat
  cmdlineStr : Option String
  environStr : Option String

/-- run.rs build_log_entry: the python traces actually used — the
capture_python_stack_traces result when the process name starts with
python, an empty map on error or for non-python processes. -/
def pyTracesOf (name : String) (pyResult : Except String (List (Nat × List String))) :
    List (Nat × List String) :=
  if name.startsWith "python" then
    match pyResult with
    | Except.ok t => t
    | Except.error _ => []
  else
    []

/-- Association-list lookup for the python trace HashMap. -/
def pyLookup (tid : Nat) : List (Nat × List String) → Option (List String)
  | [] => none
  | (k, v) :: rest => if k = tid then some v else pyLookup tid rest

/-- Association-list removal for the python trace HashMap. -/
def pyErase (tid : Nat) (m : List (Nat × List String)) : List (Nat × List String) :=
  m.filter (fun q => decide (q.1 ≠ tid))

/-- run.rs build_log_entry: the thread-merge loops — one ThreadInfo per
native capture (taking the matching python trace out of the map), then one
ThreadInfo per leftover python-only thread. -/
def mergeThreads : List (Nat × Option (List String)) → List (Nat × List String) →
    List ThreadInfo
  | [], py => py.map (fun q => { tid := q.1, stacktrace := none, python_stacktrace := some q.2 })
  | (tid, c) :: rest, py =>
    { tid := tid, stacktrace := c, python_stacktrace := pyLookup tid py } ::
      mergeThreads rest (pyErase tid py)

/-- run.rs build_log_entry.  cTraces is the capture_c_stack_traces(pid)
result, pyResult the capture_python_stack_traces(pid) result; both are
oracles for the ptrace side effects.  Returns the entry and the updated
state (metadata_written flip). -/
def buildLogEntry (pid : Nat) (reads : ProcReads)
    (cTraces : List (Nat × Option (List String)))
    (pyResult : Except String (List (Nat × List String)))
    (state : ProcState) (cpuPercent : ℚ) (rss : Nat)
    (fdEvents : List FdLogEvent) (stacktraceCpuPercentThreshold : ℚ) :
    LogEntry × ProcState :=
  let entry : LogEntry :=
    { pid := pid,
      process_name := reads.procName.getD "?",
      cpu_time_percent := cpuPercent,
      memory :=
        { rss_kb := rss,
          vsz_kb := reads.vszKb.getD 0,
          swap_kb := reads.swapKb.getD 0 },
      cmdline := none,
      env := none,
      fd_events := if fdEvents.isEmpty then none else some fdEvents,
      threads := [] }
  let (entry, state) :=
    if state.metadata_written then (entry, state)
    else
      ({ entry with cmdline := reads.cmdlineStr, env := reads.environStr },
       { state with metadata_written := true })
  let entry :=
    if stacktraceCpuPercentThreshold ≤ cpuPercent then
      { entry with
          threads := mergeThreads cTraces (pyTracesOf entry.process_name pyResult) }
    else
      entry
  (entry, state)

/-- Iterated emission for one PID: the sequence of entries produced by n
successive build_log_entry calls threading the ProcState through. -/
def buildSeq (pid : Nat) (reads : ProcReads)
    (cTraces : List (Nat × Option (List String)))
    (pyResult : Except String (List (Nat × List String)))
    (cpuPercent : ℚ) (rss : Nat) (fdEvents : List FdLogEvent) (thr : ℚ) :
    ProcState → Nat → List LogEntry × ProcState
  | state, 0 => ([], state)
  | state, n + 1 =>
    let r := buildLogEntry pid reads cTraces pyResult state cpuPercent rss fdEvents thr
    let rest := buildSeq pid reads cTraces pyResult cpuPercent rss fdEvents thr r.2 n
    (r.1 :: rest.1, rest.2)

/-- run.rs prune_states: the final LogEntry assembled for one departed pid
when at least one fd remained (zero cpu, zero memory, no metadata, no
threads, a synthetic close event per remaining fd). -/
def pruneFinalEntry (pid : Nat) (procName : Option String) (state : ProcState) :
    LogEntry :=
  { pid := pid,
    process_name := procName.getD "?",
    cpu_time_percent := 0,
    memory := { rss_kb := 0, vsz_kb := 0, swap_kb := 0 },
    cmdline := none,
    env := none,
    fd_events :=
      some (state.fds.map (fun q => { fd := q.1, event := "close", path := q.2 })),
    threads := [] }

/-- run.rs prune_states for one pid of the states map: the entry written
for it, if any (a sink must be configured and a close event must exist). -/
def pruneOne (pid : Nat) (procName : Option String) (hasOutputDir : Bool)
    (state : ProcState) : Option LogEntry :=
  if hasOutputDir then
    let events := state.fds.map (fun q => FdLogEvent.mk q.1 "close" q.2)
    if events.isEmpty then none
    else some (pruneFinalEntry pid procName state)
  else
    none

/-- run.rs prune_states.  states is the sampler states HashMap as an
association list, pids the fresh enumeration, names the process_name
oracle.  Returns the retained states and the final entries written. -/
def pruneStates (states : List (Nat × ProcState)) (pids : List Nat)
    (hasOutputDir : Bool) (names : Nat → Option String) :
    List (Nat × ProcState) × List LogEntry :=
  match states with
  | [] => ([], [])
  | (pid, st) :: rest =>
    let r := pruneStates rest pids hasOutputDir names
    if pids.contains pid then
      ((pid, st) :: r.1, r.2)
    else
      (r.1, (pruneOne pid (names pid) hasOutputDir st).toList ++ r.2)

/-- stacktrace.rs: the registers read by PTRACE_GETREGS that the walker
uses (rip and rbp). -/
structure Regs where
  rip : Nat
  rbp : Nat
deriving DecidableEq

/-- stacktrace.rs get_stack_trace: the frame-pointer walk.  mem is the
ptrace::read oracle (none models an errored read, which the source
propagates with the question-mark operator, discarding the addresses
collected so far).  fuel is the remaining max_frames budget. -/
def walkFrames (mem : Nat → Option Nat) : Nat → Nat → List Nat → Option (List Nat)
  | 0, _, addrs => some addrs
  | fuel + 1, rbp, addrs =>
    if rbp = 0 then some addrs
    else
      match mem (rbp + 8) with
      | none => none
      | some nextRip =>
        match mem rbp with
        | none => none
        | some nextRbp =>
          if nextRbp = 0 then some (addrs ++ [nextRip])
          else walkFrames mem fuel nextRbp (addrs ++ [nextRip])

/-- stacktrace.rs get_stack_trace: seeds the address list with rip and
walks the rbp chain; a getregs failure (regs = none) is an error. -/
def getStackTrace (regs : Option Regs) (mem : Nat → Option Nat)
    (maxFrames : Nat) : Option (List Nat) :=
  match regs with
  | none => none
  | some r => walkFrames mem maxFrames r.rbp [r.rip]

/-- stacktrace.rs capture_stack_trace for one TID.  attachOk is the
ptrace::attach plus waitpid outcome; describeLine renders one address with
its index through the module set (load_loaders and describe_addr).  The
unconditional detach is a pure side effect and has no observable trace
here. -/
def captureStackTrace (attachOk : Bool) (regs : Option Regs)
    (mem : Nat → Option Nat) (describeLine : Nat → Nat → String) :
    Option (List String) :=
  if attachOk then
    (getStackTrace regs mem 32).map (fun addrs =>
      (addrs.enum.map (fun q => describeLine q.1 q.2)))
  else
    none

/-- stacktrace.rs capture_c_stack_traces: sorts the TIDs enumerated from
/proc/pid/task and captures each one in turn; a failed capture yields a
none stacktrace for that TID and the loop continues. -/
def captureCStackTraces (tids : List Nat)
    (capture : Nat → Option (List String)) : List (Nat × Option (List String)) :=
  (tids.mergeSort (fun a b => decide (a ≤ b))).map (fun tid => (tid, capture tid))

/-- stacktrace.rs ModuleData as cached: the loader is identified by a tag
so that distinct constructions are distinguishable. -/
structure ModuleData where
  loaderTag : Nat
  is_pic : Bool
deriving DecidableEq

/-- stacktrace.rs CachedModule: optional module (none caches a rejection)
plus the mtime observed when the entry was built. -/
structure CachedModule where
  module : Option ModuleData
  mtime : Option Nat
deriving DecidableEq

/-- The thread-local MODULE_CACHE as an association list path to entry. -/
def ModuleCache := List (String × CachedModule)

/-- Cache lookup (map.get(path)). -/
def cacheLookup (path : String) : List (String × CachedModule) → Option CachedModule
  | [] => none
  | (k, v) :: rest => if k = path then some v else cacheLookup path rest

/-- Cache removal (map.remove(path)). -/
def cacheErase (path : String) (c : List (String × CachedModule)) :
    List (String × CachedModule) :=
  c.filter (fun q => decide (q.1 ≠ path))

/-- Cache insertion (map.insert(path, entry)). -/
def cacheInsert (path : String) (entry : CachedModule)
    (c : List (String × CachedModule)) : List (String × CachedModule) :=
  (path, entry) :: cacheErase path c

/-- Filesystem view of one path for get_module: metaView is the
fs::metadata result as (is_file, modified-time); header4 the result of
reading the first four bytes; loaderTag the Loader::new outcome (a fresh
tag on success); objKindDynamic the object::File::parse outcome (whether
the kind is Dynamic), none when reading or parsing fails, which leaves
is_pic false. -/
structure FsView where
  metaView : Option (Bool × Option Nat)
  header4 : Option (List Nat)
  loaderTag : Option Nat
  objKindDynamic : Option Bool

/-- The ELF magic bytes checked by get_module. -/
def elfMagic : List Nat := [0x7f, 0x45, 0x4c, 0x46]

/-- The path.starts_with("[") pseudo-mapping test of get_module, computed
on the character list so concrete instances evaluate in the kernel. -/
def startsWithBracket (path : String) : Bool :=
  match path.toList with
  | [] => false
  | c :: _ => c = '\x5b'

/-- stacktrace.rs get_module, cache-rebuild path: runs after the mtime
check has missed (entry absent or stale, stale entry already removed).
Returns the result, the updated cache and the number of Loader::new
constructions performed. -/
def getModuleRebuild (fs : FsView) (path : String) (mtime : Option Nat)
    (c : List (String × CachedModule)) :
    Option ModuleData × List (String × CachedModule) × Nat :=
  match fs.header4 with
  | none =>
    (none, cacheInsert path { module := none, mtime := mtime } c, 0)
  | some header =>
    if header ≠ elfMagic then
      (none, cacheInsert path { module := none, mtime := mtime } c, 0)
    else
      match fs.loaderTag with
      | some tag =>
        let m : ModuleData := { loaderTag := tag, is_pic := fs.objKindDynamic.getD false }
        (some m, cacheInsert path { module := some m, mtime := mtime } c, 1)
      | none =>
        (none, cacheInsert path { module := none, mtime := mtime } c, 1)

/-- stacktrace.rs get_module: pseudo-mapping and stat checks, then the
mtime-keyed cache consult, then the rebuild path on a miss. -/
def getModule (fs : FsView) (path : String) (c : List (String × CachedModule)) :
    Option ModuleData × List (String × CachedModule) × Nat :=
  if startsWithBracket path then (none, c, 0)
  else
    match fs.metaView with
    | none => (none, c, 0)
    | some (isFile, mtime) =>
      if !isFile then (none, c, 0)
      else
        match cacheLookup path c with
        | some entry =>
          if entry.mtime = mtime then (entry.module, c, 0)
          else getModuleRebuild fs path mtime (cacheErase path c)
        | none => getModuleRebuild fs path mtime c

/-- Schedule of the environment for the run loop in run.rs: flagAt gives
the k-th term.load() result, childReaped the try_wait outcome at loop pass
i, targetGone the /proc/pid existence failures at pass i; hasChild and
hasTarget say whether a child was spawned and whether a target pid is set;
quanta is the number of 100 ms sleep steps per pass. -/
structure RunSchedule where
  flagAt : Nat → Bool
  childReaped : Nat → Bool
  targetGone : Nat → Bool
  hasChild : Bool
  hasTarget : Bool
  quanta : Nat

/-- Observable outcome of the run loop: monitor_iteration count, whether
the post-loop flush iteration ran, whether the child was waited, and
whether the function returned from inside the sleep loop. -/
structure RunOutcome where
  iterations : Nat
  finalFlush : Bool
  childWaited : Bool
  earlyReturn : Bool
deriving DecidableEq

/-- run.rs: the sleep loop between passes — before each 100 ms quantum the
terminate flag is read, and a set flag makes run() return on the spot.
Yields whether that return fired and the next flag-read index. -/
def sleepQuanta (sc : RunSchedule) (k : Nat) : Nat → Bool × Nat
  | 0 => (false, k)
  | q + 1 => if sc.flagAt k then (true, k + 1) else sleepQuanta sc (k + 1) q

/-- run.rs: the code after the loop — one more monitor_iteration when the
terminate flag is set, then wait() on the spawned child if any. -/
def finishRun (sc : RunSchedule) (k iters : Nat) : RunOutcome :=
  if sc.flagAt k then
    { iterations := iters + 1, finalFlush := true,
      childWaited := sc.hasChild, earlyReturn := false }
  else
    { iterations := iters, finalFlush := false,
      childWaited := sc.hasChild, earlyReturn := false }

/-- run.rs: the main loop of run(), pass by pass.  i is the pass index, k
the next term.load index, iters the monitor_iteration count so far; fuel
bounds the recursion (none models a run that is still looping). -/
def runLoop (sc : RunSchedule) : Nat → Nat → Nat → Nat → Option RunOutcome
  | 0, _, _, _ => none
  | fuel + 1, i, k, iters =>
    if sc.hasTarget && sc.targetGone i then
      some (finishRun sc k iters)
    else
      let iters := iters + 1
      if sc.hasChild && sc.childReaped i then
        some (finishRun sc k iters)
      else if !sc.hasChild && sc.hasTarget && sc.targetGone i then
        some (finishRun sc k iters)
      else if sc.flagAt k then
        some (finishRun sc (k + 1) iters)
      else
        match sleepQuanta sc (k + 1) sc.quanta with
        | (true, _) =>
          some { iterations := iters, finalFlush := false,
                 childWaited := false, earlyReturn := true }
        | (false, k') =>
          if sc.flagAt k' then
            some (finishRun sc (k' + 1) iters)
          else
            runLoop sc fuel (i + 1) (k' + 1) iters

/-- Default LogEntry used as the out-of-range value for list indexing in
statements (its cmdline and env are absent). -/
def emptyEntry : LogEntry :=
  { pid := 0, process_name := "", cpu_time_percent := 0,
    memory := { rss_kb := 0, vsz_kb := 0, swap_kb := 0 },
    cmdline := none, env := none, fd_events := none, threads := [] }

/-- Memory oracle for the walker counterexample: the saved return address
at 16 + 8 reads fine, every other ptrace::read fails. -/
def memCex : Nat → Option Nat :=
  fun a => if a = 24 then some 200 else none

/-- Memory oracle where every ptrace::read fails. -/
def memNone : Nat → Option Nat := fun _ => none

/-- Run-loop schedule where the terminate flag first reads true at the
check inside the first 100 ms sleep quantum (read index 1), with a spawned
child still running. -/
def cexSchedule : RunSchedule :=
  { flagAt := fun k => decide (1 ≤ k), childReaped := fun _ => false,
    targetGone := fun _ => false, hasChild := true, hasTarget := true,
    quanta := 2 }

/-- Run-loop schedule where the terminate flag is already set at the first
check after the iteration, with a spawned child still running. -/
def wSchedule : RunSchedule :=
  { flagAt := fun _ => true, childReaped := fun _ => false,
    targetGone := fun _ => false, hasChild := true, hasTarget := false,
    quanta := 2 }

/-- Concrete /proc reads for witnesses. -/
def wReads : ProcReads :=
  { procName := some "worker", vszKb := some 12, swapKb := some 3,
    cmdlineStr := some "worker --flag", environStr := some "PATH=/bin" }

/-- Concrete previous fd map for the FD-differ witness: fd 1 open on a,
fd 2 on b, fd 3 on c. -/
def wPrevFds : List (Int × String) := [(1, "a"), (2, "b"), (3, "c")]

/-- Concrete current fd map for the FD-differ witness: fd 1 closed, fd 3
replaced by d, fd 4 newly open on e. -/
def wCurFds : List (Int × String) := [(2, "b"), (3, "d"), (4, "e")]

/-- Concrete sampler state holding wPrevFds. -/
def wState : ProcState := { ProcState.init with fds := wPrevFds }

/-- C9: compute_cpu_percent equals 100 * delta_proc / delta_total *
num_cpus whenever delta_total is positive, equals 0 when delta_total is
zero, and in particular yields 200 for a process fully saturating 2 of 2
cpus. -/
theorem compute_cpu_percent_spec (dp dt n : Nat) (h : 0 < dt) :
    computeCpuPercent dp dt n = 100 * (dp : ℚ) / (dt : ℚ) * (n : ℚ) ∧
    computeCpuPercent dp 0 n = 0 ∧
    computeCpuPercent 2 2 2 = 200 := by
  have hne : dt ≠ 0 := by omega
  refine ⟨by simp [computeCpuPercent, hne], rfl, by norm_num [computeCpuPercent]⟩

/-- Witness for compute_cpu_percent_spec at dp = 3, dt = 2, n = 4. -/
theorem compute_cpu_percent_spec_witness :
    0 < 2 ∧
    (computeCpuPercent 3 2 4 = 100 * (3 : ℚ) / (2 : ℚ) * (4 : ℚ) ∧
     computeCpuPercent 3 0 4 = 0 ∧
     computeCpuPercent 2 2 2 = 200) :=
  ⟨by decide, compute_cpu_percent_spec 3 2 4 (by decide)⟩

/-- C10: with both /proc reads succeeding, get_proc_usage returns none
exactly when this is the first observation (prev_total_time = 0) or the
total-jiffies delta is zero; in every such case it still overwrites
prev_proc_time and prev_total_time with the fresh snapshot, and the caller
substitutes 0 for the missing sample. -/
theorem get_proc_usage_none_iff (u s total : Nat) (rssRead : Option Nat)
    (numCpus : Nat) (st : ProcState) :
    ((getProcUsage (some (u, s)) (some total) rssRead numCpus st).1 = none ↔
       st.prev_total_time = 0 ∨ total - st.prev_total_time = 0) ∧
    (getProcUsage (some (u, s)) (some total) rssRead numCpus st).2.prev_proc_time = u + s ∧
    (getProcUsage (some (u, s)) (some total) rssRead numCpus st).2.prev_total_time = total ∧
    ((getProcUsage (some (u, s)) (some total) rssRead numCpus st).1 = none →
       cpuOfUsage (getProcUsage (some (u, s)) (some total) rssRead numCpus st).1 = 0) := by
  by_cases h1 : st.prev_total_time = 0
  · simp [getProcUsage, h1, cpuOfUsage]
  · by_cases h2 : total - st.prev_total_time = 0
    · simp [getProcUsage, h1, h2, cpuOfUsage]
    · simp [getProcUsage, h1, h2, cpuOfUsage]

/-- Witness for get_proc_usage_none_iff on a second observation with a
positive total delta. -/
theorem get_proc_usage_none_iff_witness :
    (((getProcUsage (some (3, 2)) (some 50) (some 7) 2
        { prev_proc_time := 1, prev_total_time := 20, fds := [],
          pending_fd_events := [], metadata_written := false }).1 = none ↔
       (20 : Nat) = 0 ∨ 50 - 20 = 0) ∧
     (getProcUsage (some (3, 2)) (some 50) (some 7) 2
        { prev_proc_time := 1, prev_total_time := 20, fds := [],
          pending_fd_events := [], metadata_written := false }).2.prev_proc_time = 3 + 2 ∧
     (getProcUsage (some (3, 2)) (some 50) (some 7) 2
        { prev_proc_time := 1, prev_total_time := 20, fds := [],
          pending_fd_events := [], metadata_written := false }).2.prev_total_time = 50 ∧
     ((getProcUsage (some (3, 2)) (some 50) (some 7) 2
        { prev_proc_time := 1, prev_total_time := 20, fds := [],
          pending_fd_events := [], metadata_written := false }).1 = none →
       cpuOfUsage (getProcUsage (some (3, 2)) (some 50) (some 7) 2
        { prev_proc_time := 1, prev_total_time := 20, fds := [],
          pending_fd_events := [], metadata_written := false }).1 = 0)) :=
  get_proc_usage_none_iff 3 2 50 (some 7) 2
    { prev_proc_time := 1, prev_total_time := 20, fds := [],
      pending_fd_events := [], metadata_written := false }

/-- C2 counterexample: a freshly discovered PID (prev_total_time = 0) IS
skipped on its first tick by the CPU-threshold comparison once
record_cpu_percent_threshold is positive (here 1): the suppressed sample
is substituted with cpu = 0 and 0 < 1 makes should_skip_pid return true,
with no target pid and no ignore-pattern match involved. -/
theorem first_tick_skip_counterexample :
    ProcState.init.prev_total_time = 0 ∧
    shouldSkipPid none (some "worker") (fun _ => false) 1
      (cpuOfUsage (getProcUsage (some (5, 5)) (some 100) (some 0) 4 ProcState.init).1) =
      true := by
  constructor
  · rfl
  · decide

/-- C2 amended: for a freshly discovered PID, get_proc_usage returns no
CPU figure and only seeds prev_proc_time and prev_total_time from the
first snapshot; the sampler substitutes cpu = 0 for the missing sample, so
(when not pinned to a target pid) the first tick is skipped exactly when
an ignore pattern matches the name or 0 < record_cpu_percent_threshold —
in particular it is not skipped under the default threshold 0. -/
theorem first_tick_amended (u s total : Nat) (rssRead : Option Nat)
    (numCpus : Nat) (st : ProcState) (procName : Option String)
    (matchesIgnore : String → Bool) (thr : ℚ)
    (hfresh : st.prev_total_time = 0) :
    (getProcUsage (some (u, s)) (some total) rssRead numCpus st).1 = none ∧
    (getProcUsage (some (u, s)) (some total) rssRead numCpus st).2 =
      { st with prev_proc_time := u + s, prev_total_time := total } ∧
    shouldSkipPid none procName matchesIgnore thr
        (cpuOfUsage (getProcUsage (some (u, s)) (some total) rssRead numCpus st).1) =
      ((match procName with
        | some name => matchesIgnore name
        | none => false) || decide ((0 : ℚ) < thr)) := by
  refine ⟨by simp [getProcUsage, hfresh], by simp [getProcUsage, hfresh], ?_⟩
  simp [getProcUsage, hfresh, cpuOfUsage, shouldSkipPid]

/-- Witness for first_tick_amended on a fresh state with threshold 1. -/
theorem first_tick_amended_witness :
    ProcState.init.prev_total_time = 0 ∧
    ((getProcUsage (some (5, 5)) (some 100) (some 0) 4 ProcState.init).1 = none ∧
     (getProcUsage (some (5, 5)) (some 100) (some 0) 4 ProcState.init).2 =
       { ProcState.init with prev_proc_time := 5 + 5, prev_total_time := 100 } ∧
     shouldSkipPid none (some "worker") (fun _ => false) 1
         (cpuOfUsage (getProcUsage (some (5, 5)) (some 100) (some 0) 4 ProcState.init).1) =
       ((match some "worker" with
         | some name => (fun _ => false : String → Bool) name
         | none => false) || decide ((0 : ℚ) < 1))) :=
  ⟨rfl,
   first_tick_amended 5 5 100 (some 0) 4 ProcState.init (some "worker")
     (fun _ => false) 1 rfl⟩

/-- C1: the stacktrace gate of build_log_entry — the entry carries the
merged captured threads (native captures, plus the python captures used
when the process name starts with python) exactly when cpu_percent is at
least stacktrace_cpu_percent_threshold, and carries no threads when
cpu_percent is below the threshold, for every cpu and threshold value. -/
theorem build_log_entry_stacktrace_gate (pid : Nat) (reads : ProcReads)
    (cTraces : List (Nat × Option (List String)))
    (pyResult : Except String (List (Nat × List String)))
    (st : ProcState) (cpu : ℚ) (rss : Nat) (fdEvents : List FdLogEvent)
    (thr : ℚ) :
    (buildLogEntry pid reads cTraces pyResult st cpu rss fdEvents thr).1.threads =
      (if thr ≤ cpu then
        mergeThreads cTraces (pyTracesOf (reads.procName.getD "?") pyResult)
      else []) := by
  unfold buildLogEntry
  by_cases hm : st.metadata_written <;> by_cases hg : thr ≤ cpu <;>
    simp [hm, hg]

/-- Witness for the stacktrace gate: a hot python process at cpu 5 and
threshold 1 captures both native and python threads. -/
theorem build_log_entry_stacktrace_gate_witness :
    (buildLogEntry 9
        { procName := some "python3", vszKb := some 1, swapKb := some 1,
          cmdlineStr := none, environStr := none }
        [(9, some ["m"]), (10, none)] (Except.ok [(10, ["f a.py:3"])])
        ProcState.init 5 8 [] 1).1.threads =
      (if (1 : ℚ) ≤ 5 then
        mergeThreads [(9, some ["m"]), (10, none)]
          (pyTracesOf ((some "python3").getD "?") (Except.ok [(10, ["f a.py:3"])]))
      else []) :=
  build_log_entry_stacktrace_gate 9
    { procName := some "python3", vszKb := some 1, swapKb := some 1,
      cmdlineStr := none, environStr := none }
    [(9, some ["m"]), (10, none)] (Except.ok [(10, ["f a.py:3"])])
    ProcState.init 5 8 [] 1

/-- After any build_log_entry call the metadata_written flag is true. -/
theorem buildLogEntry_written (pid : Nat) (reads : ProcReads)
    (cTraces : List (Nat × Option (List String)))
    (pyResult : Except String (List (Nat × List String)))
    (st : ProcState) (cpu : ℚ) (rss : Nat) (fdEvents : List FdLogEvent)
    (thr : ℚ) :
    (buildLogEntry pid reads cTraces pyResult st cpu rss fdEvents thr).2.metadata_written =
      true := by
  unfold buildLogEntry
  by_cases hm : st.metadata_written <;> simp [hm]

/-- A build_log_entry call on a state with metadata already written emits
no cmdline and no env. -/
theorem buildLogEntry_no_metadata (pid : Nat) (reads : ProcReads)
    (cTraces : List (Nat × Option (List String)))
    (pyResult : Except String (List (Nat × List String)))
    (st : ProcState) (cpu : ℚ) (rss : Nat) (fdEvents : List FdLogEvent)
    (thr : ℚ) (hm : st.metadata_written = true) :
    (buildLogEntry pid reads cTraces pyResult st cpu rss fdEvents thr).1.cmdline = none ∧
    (buildLogEntry pid reads cTraces pyResult st cpu rss fdEvents thr).1.env = none := by
  unfold buildLogEntry
  by_cases hg : thr ≤ cpu <;> simp [hm, hg]

/-- A build_log_entry call on a state without metadata written emits the
cmdline and environ reads. -/
theorem buildLogEntry_first_metadata (pid : Nat) (reads : ProcReads)
    (cTraces : List (Nat × Option (List String)))
    (pyResult : Except String (List (Nat × List String)))
    (st : ProcState) (cpu : ℚ) (rss : Nat) (fdEvents : List FdLogEvent)
    (thr : ℚ) (hm : st.metadata_written = false) :
    (buildLogEntry pid reads cTraces pyResult st cpu rss fdEvents thr).1.cmdline =
      reads.cmdlineStr ∧
    (buildLogEntry pid reads cTraces pyResult st cpu rss fdEvents thr).1.env =
      reads.environStr := by
  unfold buildLogEntry
  by_cases hg : thr ≤ cpu <;> simp [hm, hg]

/-- Over a written state, every entry of the emission sequence lacks
cmdline and env, and the flag stays true. -/
theorem buildSeq_written_all (pid : Nat) (reads : ProcReads)
    (cTraces : List (Nat × Option (List String)))
    (pyResult : Except String (List (Nat × List String)))
    (cpu : ℚ) (rss : Nat) (fdEvents : List FdLogEvent) (thr : ℚ) :
    ∀ (n : Nat) (st : ProcState), st.metadata_written = true →
      (∀ e ∈ (buildSeq pid reads cTraces pyResult cpu rss fdEvents thr st n).1,
        e.cmdline = none ∧ e.env = none) ∧
      (buildSeq pid reads cTraces pyResult cpu rss fdEvents thr st n).2.metadata_written =
        true := by
  intro n
  induction n with
  | zero => intro st h; simpa [buildSeq] using h
  | succ m ih =>
    intro st h
    have hw := buildLogEntry_written pid reads cTraces pyResult st cpu rss fdEvents thr
    have hrec :=
      ih (buildLogEntry pid reads cTraces pyResult st cpu rss fdEvents thr).2 hw
    refine ⟨?_, ?_⟩
    · intro e he
      rcases (List.mem_cons.mp (by simpa [buildSeq] using he)) with he0 | hem
      · subst he0
        exact buildLogEntry_no_metadata pid reads cTraces pyResult st cpu rss fdEvents thr h
      · exact hrec.1 e hem
    · simpa [buildSeq] using hrec.2

/-- An element-wise property transfers to getD indexing. -/
theorem list_getD_prop {α : Type} (P : α → Prop) (d : α) :
    ∀ (l : List α) (i : Nat), (∀ e ∈ l, P e) → P d → P (l.getD i d)
  | [], i, _, hd => by simpa using hd
  | a :: t, 0, h, _ => by simpa using h a (List.mem_cons_self a t)
  | a :: t, i + 1, h, hd => by
    simpa using list_getD_prop P d t i (fun e he => h e (List.mem_cons_of_mem a he)) hd

/-- C8: metadata once — starting from a state whose metadata_written flag
is false, every entry of the emission sequence after the first lacks
cmdline and env; when at least one entry is emitted, the first carries the
cmdline and environ reads and the flag is true ever after. -/
theorem metadata_once (pid : Nat) (reads : ProcReads)
    (cTraces : List (Nat × Option (List String)))
    (pyResult : Except String (List (Nat × List String)))
    (cpu : ℚ) (rss : Nat) (fdEvents : List FdLogEvent) (thr : ℚ)
    (st : ProcState) (n : Nat) (hst : st.metadata_written = false) :
    (∀ i, 0 < i →
       ((buildSeq pid reads cTraces pyResult cpu rss fdEvents thr st n).1.getD i
           emptyEntry).cmdline = none ∧
       ((buildSeq pid reads cTraces pyResult cpu rss fdEvents thr st n).1.getD i
           emptyEntry).env = none) ∧
    (0 < n →
       ((buildSeq pid reads cTraces pyResult cpu rss fdEvents thr st n).1.getD 0
           emptyEntry).cmdline = reads.cmdlineStr ∧
       ((buildSeq pid reads cTraces pyResult cpu rss fdEvents thr st n).1.getD 0
           emptyEntry).env = reads.environStr ∧
       (buildSeq pid reads cTraces pyResult cpu rss fdEvents thr st n).2.metadata_written =
         true) := by
  cases n with
  | zero =>
    refine ⟨fun i _ => ?_, fun h => absurd h (by omega)⟩
    simp [buildSeq, emptyEntry]
  | succ m =>
    have hw := buildLogEntry_written pid reads cTraces pyResult st cpu rss fdEvents thr
    have hall :=
      buildSeq_written_all pid reads cTraces pyResult cpu rss fdEvents thr m
        (buildLogEntry pid reads cTraces pyResult st cpu rss fdEvents thr).2 hw
    have hfirst :=
      buildLogEntry_first_metadata pid reads cTraces pyResult st cpu rss fdEvents thr hst
    refine ⟨fun i hi => ?_, fun _ => ?_⟩
    · obtain ⟨j, rfl⟩ : ∃ j, i = j + 1 := ⟨i - 1, by omega⟩
      have :
          ((buildSeq pid reads cTraces pyResult cpu rss fdEvents thr st (m + 1)).1.getD
              (j + 1) emptyEntry) =
            ((buildSeq pid reads cTraces pyResult cpu rss fdEvents thr
                (buildLogEntry pid reads cTraces pyResult st cpu rss fdEvents thr).2 m).1.getD
              j emptyEntry) := by
        simp [buildSeq]
      rw [this]
      exact
        list_getD_prop (fun e => e.cmdline = none ∧ e.env = none) emptyEntry _ j hall.1
          ⟨rfl, rfl⟩
    · have h0 :
          ((buildSeq pid reads cTraces pyResult cpu rss fdEvents thr st (m + 1)).1.getD 0
              emptyEntry) =
            (buildLogEntry pid reads cTraces pyResult st cpu rss fdEvents thr).1 := by
        simp [buildSeq]
      rw [h0]
      exact ⟨hfirst.1, hfirst.2, by simpa [buildSeq] using hall.2⟩

/-- Witness for metadata_once: three emissions from a fresh state. -/
theorem metadata_once_witness :
    ProcState.init.metadata_written = false ∧
    ((∀ i, 0 < i →
        ((buildSeq 7 wReads [] (Except.ok []) 0 4 [] 1 ProcState.init 3).1.getD i
            emptyEntry).cmdline = none ∧
        ((buildSeq 7 wReads [] (Except.ok []) 0 4 [] 1 ProcState.init 3).1.getD i
            emptyEntry).env = none) ∧
     (0 < 3 →
        ((buildSeq 7 wReads [] (Except.ok []) 0 4 [] 1 ProcState.init 3).1.getD 0
            emptyEntry).cmdline = wReads.cmdlineStr ∧
        ((buildSeq 7 wReads [] (Except.ok []) 0 4 [] 1 ProcState.init 3).1.getD 0
            emptyEntry).env = wReads.environStr ∧
        (buildSeq 7 wReads [] (Except.ok []) 0 4 [] 1 ProcState.init 3).2.metadata_written =
          true)) :=
  ⟨rfl, metadata_once 7 wReads [] (Except.ok []) 0 4 [] 1 ProcState.init 3 rfl⟩

/-- fdLookup misses exactly the keys absent from the map. -/
theorem fdLookup_eq_none (fd : Int) :
    ∀ m : List (Int × String), fdLookup fd m = none ↔ fd ∉ m.map Prod.fst := by
  intro m
  induction m with
  | nil => simp [fdLookup]
  | cons p rest ih =>
    obtain ⟨k, v⟩ := p
    by_cases hk : k = fd
    · subst hk
      simp [fdLookup]
    · simp only [fdLookup, if_neg hk, List.map_cons, List.mem_cons]
      rw [ih]
      constructor
      · rintro h (h1 | h2)
        · exact hk h1.symm
        · exact h h2
      · exact fun h hmem => h (Or.inr hmem)

/-- Filtering a key-respecting filterMap down to one fd keeps at most the
image of the unique entry with that key. -/
theorem filter_filterMap_key (f : Int × String → Option FdEvent)
    (hf : ∀ p e, f p = some e → e.fd = p.1) (fd : Int) :
    ∀ P : List (Int × String), (P.map Prod.fst).Nodup →
      (P.filterMap f).filter (fun e => decide (e.fd = fd)) =
        (match fdLookup fd P with
         | none => []
         | some o => (f (fd, o)).toList) := by
  intro P
  induction P with
  | nil => intro _; simp [fdLookup]
  | cons p rest ih =>
    intro hnd
    obtain ⟨k, v⟩ := p
    rw [List.map_cons, List.nodup_cons] at hnd
    have hnd' : (rest.map Prod.fst).Nodup := hnd.2
    rw [List.filterMap_cons]
    by_cases hk : k = fd
    · subst hk
      have hknotin : k ∉ rest.map Prod.fst := hnd.1
      have hrest : fdLookup k rest = none := (fdLookup_eq_none k rest).mpr hknotin
      have hrestfil :
          (rest.filterMap f).filter (fun e => decide (e.fd = k)) = [] := by
        rw [ih hnd', hrest]
      cases hfv : f (k, v) with
      | none => simp [fdLookup, hfv, hrestfil]
      | some e =>
        have he : e.fd = k := hf _ _ hfv
        simp [fdLookup, hfv, hrestfil, he, List.filter_cons]
    · have hlk : fdLookup fd ((k, v) :: rest) = fdLookup fd rest := by
        simp [fdLookup, hk]
      cases hfv : f (k, v) with
      | none => rw [hlk, ← ih hnd']
      | some e =>
        have he : e.fd = k := hf _ _ hfv
        have hefd : ¬e.fd = fd := by rw [he]; exact hk
        rw [hlk, ← ih hnd', List.filter_cons]
        simp [hefd]

/-- Per-fd characterization of the FD differ output: filtering the event
list of detect_fd_events down to one fd gives exactly the transition the
spec table prescribes. -/
theorem detect_filter_eq_spec (current : List (Int × String)) (st : ProcState)
    (hP : (st.fds.map Prod.fst).Nodup) (hC : (current.map Prod.fst).Nodup)
    (fd : Int) :
    ((detectFdEvents current st).1).filter (fun e => decide (e.fd = fd)) =
      specFdTransition st.fds current fd := by
  have h1 :=
    filter_filterMap_key
      (fun p =>
        match fdLookup p.1 current with
        | none => some { fd := p.1, old_path := some p.2, new_path := none }
        | some newPath =>
          if newPath = p.2 then none
          else some { fd := p.1, old_path := some p.2, new_path := some newPath })
      (by
        intro p e h
        dsimp only at h
        rcases hq : fdLookup p.1 current with _ | np
        · rw [hq] at h
          simp only [Option.some.injEq] at h
          rw [← h]
        · rw [hq] at h
          by_cases hnp : np = p.2
          · simp [hnp] at h
          · simp only [if_neg hnp, Option.some.injEq] at h
            rw [← h])
      fd st.fds hP
  have h2 :=
    filter_filterMap_key
      (fun p =>
        if (fdLookup p.1 st.fds).isSome then none
        else some { fd := p.1, old_path := none, new_path := some p.2 })
      (by
        intro p e h
        dsimp only at h
        by_cases hs : (fdLookup p.1 st.fds).isSome
        · simp [hs] at h
        · simp only [if_neg hs, Option.some.injEq] at h
          rw [← h])
      fd current hC
  show
    ((st.fds.filterMap _ ++ current.filterMap _).filter (fun e => decide (e.fd = fd))) =
      specFdTransition st.fds current fd
  rw [List.filter_append, h1, h2]
  rcases hp : fdLookup fd st.fds with _ | o <;>
    rcases hc : fdLookup fd current with _ | n
  · simp [specFdTransition, hp, hc]
  · simp [specFdTransition, hp, hc]
  · simp [specFdTransition, hp, hc]
  · by_cases hno : n = o <;> simp [specFdTransition, hp, hc, hno]

/-- Erasing a key from an fd map makes its lookup miss. -/
theorem fdLookup_filter_self (fd : Int) :
    ∀ m : List (Int × String),
      fdLookup fd (m.filter (fun q => !decide (q.1 = fd))) = none := by
  intro m
  induction m with
  | nil => rfl
  | cons p rest ih =>
    obtain ⟨k, v⟩ := p
    by_cases hk : k = fd
    · subst hk
      simpa [List.filter_cons] using ih
    · simp [List.filter_cons, hk, fdLookup, ih]

/-- Erasing one key leaves the lookups of all other keys unchanged. -/
theorem fdLookup_filter_other (erased target : Int) (h : target ≠ erased) :
    ∀ m : List (Int × String),
      fdLookup target (m.filter (fun q => !decide (q.1 = erased))) =
        fdLookup target m := by
  intro m
  induction m with
  | nil => rfl
  | cons p rest ih =>
    obtain ⟨k, v⟩ := p
    by_cases hk : k = erased
    · subst hk
      have hk' : ¬k = target := fun hh => h hh.symm
      simp [List.filter_cons, fdLookup, hk', ih]
    · simp only [List.filter_cons]
      by_cases hkf : k = target
      · subst hkf
        simp [hk, fdLookup]
      · simp [hk, hkf, fdLookup, ih]

/-- Applying an event sets its own fd to the event's new path. -/
theorem fdLookup_apply_self (m : List (Int × String)) (e : FdEvent) :
    fdLookup e.fd (applyFdEvent m e) = e.new_path := by
  rcases hnp : e.new_path with _ | p
  · simp [applyFdEvent, hnp, fdLookup_filter_self]
  · simp [applyFdEvent, hnp, fdLookup]

/-- Applying an event leaves every other fd untouched. -/
theorem fdLookup_apply_other (m : List (Int × String)) (e : FdEvent) (fd : Int)
    (h : fd ≠ e.fd) :
    fdLookup fd (applyFdEvent m e) = fdLookup fd m := by
  rcases hnp : e.new_path with _ | p
  · simpa [applyFdEvent, hnp] using fdLookup_filter_other e.fd fd h m
  · have hne : ¬e.fd = fd := fun hh => h hh.symm
    simp only [applyFdEvent, hnp, fdLookup, if_neg hne]
    simpa using fdLookup_filter_other e.fd fd h m

/-- Lookup after replaying a list of events holding at most one event for
the fd: none leaves the map lookup, a single event imposes its new path. -/
theorem fdLookup_replay_unique (fd : Int) :
    ∀ (evts : List FdEvent) (m : List (Int × String)),
      (evts.filter (fun e => decide (e.fd = fd)) = [] →
        fdLookup fd (replayFdEvents m evts) = fdLookup fd m) ∧
      (∀ ev, evts.filter (fun e => decide (e.fd = fd)) = [ev] →
        fdLookup fd (replayFdEvents m evts) = ev.new_path) := by
  intro evts
  induction evts with
  | nil =>
    intro m
    exact ⟨fun _ => rfl, fun ev h => by simp at h⟩
  | cons e rest ih =>
    intro m
    have hrepl : replayFdEvents m (e :: rest) = replayFdEvents (applyFdEvent m e) rest :=
      rfl
    by_cases he : e.fd = fd
    · constructor
      · intro h
        rw [List.filter_cons_of_pos (by simpa using he)] at h
        exact absurd h (List.cons_ne_nil _ _)
      · intro ev h
        rw [List.filter_cons_of_pos (by simpa using he)] at h
        have h' := List.cons_eq_cons.mp h
        obtain ⟨rfl, hrest⟩ := h'
        rw [hrepl, (ih (applyFdEvent m e)).1 hrest, ← he]
        exact fdLookup_apply_self m e
    · have hother : fdLookup fd (applyFdEvent m e) = fdLookup fd m :=
        fdLookup_apply_other m e fd (fun hh => he hh.symm)
      constructor
      · intro h
        rw [List.filter_cons_of_neg (by simpa using he)] at h
        rw [hrepl, (ih (applyFdEvent m e)).1 h, hother]
      · intro ev h
        rw [List.filter_cons_of_neg (by simpa using he)] at h
        rw [hrepl, (ih (applyFdEvent m e)).2 ev h]

/-- Replaying the detected events over the previous map reconstructs the
current map pointwise. -/
theorem detect_replay_eq (current : List (Int × String)) (st : ProcState)
    (hP : (st.fds.map Prod.fst).Nodup) (hC : (current.map Prod.fst).Nodup)
    (fd : Int) :
    fdLookup fd (replayFdEvents st.fds (detectFdEvents current st).1) =
      fdLookup fd current := by
  have hfil := detect_filter_eq_spec current st hP hC fd
  rcases hp : fdLookup fd st.fds with _ | o <;>
    rcases hc : fdLookup fd current with _ | n
  · rw [(fdLookup_replay_unique fd _ st.fds).1
      (by rw [hfil]; simp [specFdTransition, hp, hc]), hp]
  · rw [(fdLookup_replay_unique fd _ st.fds).2
      { fd := fd, old_path := none, new_path := some n }
      (by rw [hfil]; simp [specFdTransition, hp, hc])]
  · rw [(fdLookup_replay_unique fd _ st.fds).2
      { fd := fd, old_path := some o, new_path := none }
      (by rw [hfil]; simp [specFdTransition, hp, hc])]
  · by_cases hno : n = o
    · rw [(fdLookup_replay_unique fd _ st.fds).1
        (by rw [hfil]; simp [specFdTransition, hp, hc, hno]), hp, hno]
    · rw [(fdLookup_replay_unique fd _ st.fds).2
        { fd := fd, old_path := some o, new_path := some n }
        (by rw [hfil]; simp [specFdTransition, hp, hc, hno])]

/-- C3: the FD differ emits exactly the per-fd transition events (one
close per fd only in the previous map, one open per fd only in the
current map, one replace per fd rebound to a different path, nothing for
an unchanged fd), then replaces the stored map by the current one;
replaying the emitted events over the previous map reconstructs the
current map, and a replace event drains into exactly two log events with
the close before the open. -/
theorem detect_fd_events_spec (current : List (Int × String)) (st : ProcState)
    (hP : (st.fds.map Prod.fst).Nodup) (hC : (current.map Prod.fst).Nodup) :
    (∀ fd, ((detectFdEvents current st).1).filter (fun e => decide (e.fd = fd)) =
        specFdTransition st.fds current fd) ∧
    (∀ fd, fdLookup fd (replayFdEvents st.fds (detectFdEvents current st).1) =
        fdLookup fd current) ∧
    (detectFdEvents current st).2.fds = current ∧
    (∀ fd o n, expandFdEvent { fd := fd, old_path := some o, new_path := some n } =
        [{ fd := fd, event := "close", path := o },
         { fd := fd, event := "open", path := n }]) :=
  ⟨fun fd => detect_filter_eq_spec current st hP hC fd,
   fun fd => detect_replay_eq current st hP hC fd,
   rfl,
   fun _ _ _ => rfl⟩

/-- Witness for the FD differ on concrete maps: fd 1 closes, fd 3 is
replaced, fd 4 opens, fd 2 stays silent. -/
theorem detect_fd_events_spec_witness :
    ((wState.fds.map Prod.fst).Nodup ∧ (wCurFds.map Prod.fst).Nodup) ∧
    ((∀ fd, ((detectFdEvents wCurFds wState).1).filter (fun e => decide (e.fd = fd)) =
        specFdTransition wState.fds wCurFds fd) ∧
     (∀ fd, fdLookup fd (replayFdEvents wState.fds (detectFdEvents wCurFds wState).1) =
        fdLookup fd wCurFds) ∧
     (detectFdEvents wCurFds wState).2.fds = wCurFds ∧
     (∀ fd o n, expandFdEvent { fd := fd, old_path := some o, new_path := some n } =
        [{ fd := fd, event := "close", path := o },
         { fd := fd, event := "open", path := n }])) :=
  ⟨⟨by decide, by decide⟩,
   detect_fd_events_spec wCurFds wState (by decide) (by decide)⟩

/-- The final entry pruneOne builds carries the departed pid. -/
theorem pruneOne_pid (q : Nat) (nm : Option String) (dir : Bool)
    (stq : ProcState) (e : LogEntry) (h : pruneOne q nm dir stq = some e) :
    e.pid = q := by
  unfold pruneOne at h
  by_cases hd : dir
  · rw [if_pos hd] at h
    by_cases he : (stq.fds.map (fun p => FdLogEvent.mk p.1 "close" p.2)).isEmpty
    · simp [he] at h
    · simp only [he, if_neg, Bool.false_eq_true, not_false_eq_true,
        Option.some.injEq] at h
      rw [← h]
      rfl
  · simp [hd] at h

/-- Every pruned entry stems from a pid of the states map. -/
theorem pruneStates_entry_pid (pids : List Nat) (dir : Bool)
    (names : Nat → Option String) :
    ∀ (states : List (Nat × ProcState)) (e : LogEntry),
      e ∈ (pruneStates states pids dir names).2 → e.pid ∈ states.map Prod.fst := by
  intro states
  induction states with
  | nil => intro e he; simp [pruneStates] at he
  | cons p rest ih =>
    intro e he
    obtain ⟨k, stk⟩ := p
    rw [List.map_cons]
    by_cases hc : pids.contains k = true
    · simp only [pruneStates, hc, if_pos] at he
      exact List.mem_cons_of_mem _ (ih e he)
    · have hunf : (pruneStates ((k, stk) :: rest) pids dir names).2 =
          (pruneOne k (names k) dir stk).toList ++ (pruneStates rest pids dir names).2 := by
        have hm : ¬k ∈ pids := by simpa using hc
        simp [pruneStates, hm]
      rw [hunf] at he
      rcases List.mem_append.mp he with he1 | he2
      · rcases ho : pruneOne k (names k) dir stk with _ | e'
        · rw [ho] at he1; simp at he1
        · rw [ho] at he1
          simp only [Option.toList, List.mem_singleton] at he1
          subst he1
          exact List.mem_cons.mpr (Or.inl (pruneOne_pid k (names k) dir stk e ho))
      · exact List.mem_cons_of_mem _ (ih e he2)

/-- Retained states all belong to the fresh pid enumeration. -/
theorem pruneStates_kept (pids : List Nat) (dir : Bool)
    (names : Nat → Option String) :
    ∀ (states : List (Nat × ProcState)) (q : Nat) (stq : ProcState),
      (q, stq) ∈ (pruneStates states pids dir names).1 → q ∈ pids := by
  intro states
  induction states with
  | nil => intro q stq h; simp [pruneStates] at h
  | cons p rest ih =>
    intro q stq h
    obtain ⟨k, stk⟩ := p
    by_cases hc : pids.contains k = true
    · simp only [pruneStates, hc, if_pos] at h
      rcases List.mem_cons.mp h with h1 | h2
      · have h1' : q = k := congrArg Prod.fst h1
        exact h1' ▸ (by simpa using hc)
      · exact ih q stq h2
    · have hm : ¬k ∈ pids := by simpa using hc
      have hunf : (pruneStates ((k, stk) :: rest) pids dir names).1 =
          (pruneStates rest pids dir names).1 := by
        simp [pruneStates, hm]
      rw [hunf] at h
      exact ih q stq h

/-- Filtering the pruned entries down to one departed pid leaves exactly
the optional final entry of that pid. -/
theorem pruneStates_filter_eq (pids : List Nat) (names : Nat → Option String)
    (pid : Nat) (st : ProcState) :
    ∀ states : List (Nat × ProcState), (states.map Prod.fst).Nodup →
      (pid, st) ∈ states → pids.contains pid = false →
      ((pruneStates states pids true names).2.filter (fun e => decide (e.pid = pid))) =
        (pruneOne pid (names pid) true st).toList := by
  intro states
  induction states with
  | nil => intro _ hmem _; simp at hmem
  | cons p rest ih =>
    intro hnd hmem hnc
    obtain ⟨k, stk⟩ := p
    rw [List.map_cons, List.nodup_cons] at hnd
    rcases List.mem_cons.mp hmem with heq | hmem'
    · injection heq with h1 h2
      subst h1
      subst h2
      have hm : ¬pid ∈ pids := by simpa using hnc
      have hunf : (pruneStates ((pid, st) :: rest) pids true names).2 =
          (pruneOne pid (names pid) true st).toList ++
            (pruneStates rest pids true names).2 := by
        simp [pruneStates, hm]
      rw [hunf, List.filter_append]
      have hkeep :
          (pruneOne pid (names pid) true st).toList.filter
              (fun e => decide (e.pid = pid)) =
            (pruneOne pid (names pid) true st).toList := by
        rcases ho : pruneOne pid (names pid) true st with _ | e'
        · rfl
        · have hp := pruneOne_pid pid (names pid) true st e' ho
          simp [Option.toList, hp]
      have hnil :
          ((pruneStates rest pids true names).2.filter
              (fun e => decide (e.pid = pid))) = [] := by
        rw [List.filter_eq_nil_iff]
        intro e he
        have hmem2 := pruneStates_entry_pid pids true names rest e he
        simp only [decide_eq_true_eq]
        intro hdec
        exact hnd.1 (hdec ▸ hmem2)
      rw [hkeep, hnil, List.append_nil]
    · have hkp : ¬k = pid := by
        intro h
        exact hnd.1 (h ▸ List.mem_map.mpr ⟨(pid, st), hmem', rfl⟩)
      by_cases hc : pids.contains k = true
      · simp only [pruneStates, hc, if_pos]
        exact ih hnd.2 hmem' hnc
      · have hm : ¬k ∈ pids := by simpa using hc
        have hunf : (pruneStates ((k, stk) :: rest) pids true names).2 =
            (pruneOne k (names k) true stk).toList ++
              (pruneStates rest pids true names).2 := by
          simp [pruneStates, hm]
        rw [hunf, List.filter_append]
        have hdrop :
            (pruneOne k (names k) true stk).toList.filter
                (fun e => decide (e.pid = pid)) = [] := by
          rcases ho : pruneOne k (names k) true stk with _ | e'
          · rfl
          · have hp := pruneOne_pid k (names k) true stk e' ho
            simp [Option.toList, hp, hkp]
        rw [hdrop, List.nil_append]
        exact ih hnd.2 hmem' hnc

/-- C4 counterexample: a pid present in states and absent from the fresh
enumeration whose state holds no fds is pruned WITHOUT any final LogEntry
being written — the claimed unconditional final entry does not exist. -/
theorem prune_no_final_entry_counterexample :
    (5, ProcState.init) ∈ [((5 : Nat), ProcState.init)] ∧
    (([] : List Nat).contains 5) = false ∧
    (pruneStates [((5 : Nat), ProcState.init)] [] true (fun _ => none)).2 = [] ∧
    (pruneStates [((5 : Nat), ProcState.init)] [] true (fun _ => none)).1 = [] := by
  exact ⟨List.mem_singleton.mpr rfl, rfl, rfl, rfl⟩

/-- C4 amended: for a pid in the states map missing from the fresh
enumeration, pruning destroys its state, and — when a sink is configured —
writes a final entry exactly when at least one fd remained, that entry
carrying one synthetic close per remaining fd, zero cpu, zero memory, no
metadata and no threads; at most one final entry is emitted for the
departing pid. -/
theorem prune_states_spec (states : List (Nat × ProcState)) (pids : List Nat)
    (names : Nat → Option String) (pid : Nat) (st : ProcState)
    (hnd : (states.map Prod.fst).Nodup) (hmem : (pid, st) ∈ states)
    (hgone : pids.contains pid = false) :
    (∀ st', (pid, st') ∉ (pruneStates states pids true names).1) ∧
    ((pruneStates states pids true names).2.filter (fun e => decide (e.pid = pid)) =
      if st.fds.isEmpty then [] else [pruneFinalEntry pid (names pid) st]) ∧
    (pruneFinalEntry pid (names pid) st).cpu_time_percent = 0 ∧
    (pruneFinalEntry pid (names pid) st).memory =
      { rss_kb := 0, vsz_kb := 0, swap_kb := 0 } ∧
    (pruneFinalEntry pid (names pid) st).threads = [] ∧
    (pruneFinalEntry pid (names pid) st).cmdline = none ∧
    (pruneFinalEntry pid (names pid) st).env = none ∧
    (pruneFinalEntry pid (names pid) st).fd_events =
      some (st.fds.map (fun q => { fd := q.1, event := "close", path := q.2 })) := by
  refine ⟨?_, ?_, rfl, rfl, rfl, rfl, rfl, rfl⟩
  · intro st' hkept
    have hin := pruneStates_kept pids true names states pid st' hkept
    have hout : ¬pid ∈ pids := by simpa using hgone
    exact hout hin
  · rw [pruneStates_filter_eq pids names pid st states hnd hmem hgone]
    unfold pruneOne
    rcases hf : st.fds with _ | ⟨q, rest⟩
    · simp [hf]
    · simp [pruneFinalEntry, hf]

/-- Witness for prune_states_spec: pid 5 with three remaining fds departs
while pid 7 survives; the filtered output is the single final entry. -/
theorem prune_states_spec_witness :
    ((pruneStates [((5 : Nat), wState)] [7] true (fun _ => some "sh")).2.filter
        (fun e => decide (e.pid = 5)) =
      if wState.fds.isEmpty then []
      else [pruneFinalEntry 5 (some "sh") wState]) :=
  (prune_states_spec [((5 : Nat), wState)] [7] (fun _ => some "sh") 5 wState
    (by decide) (by decide) rfl).2.1

/-- C6 counterexample: the walk seeds rip = 100, reads the saved return
address 200 at rbp + 8 = 24 and then fails reading the saved rbp at 16;
the partial chain [100, 200] had been collected, yet get_stack_trace
returns an error (none) and the whole trace is discarded rather than the
partial chain being returned. -/
theorem get_stack_trace_midwalk_counterexample :
    memCex (16 + 8) = some 200 ∧
    memCex 16 = none ∧
    getStackTrace (some { rip := 100, rbp := 16 }) memCex 32 = none := by
  exact ⟨rfl, rfl, rfl⟩

/-- C6 amended: an attach failure yields stacktrace none for the TID and
capture proceeds for every enumerated TID in sorted order; a ptrace read
failure mid-walk makes get_stack_trace propagate the error, so that TID
likewise ends with stacktrace none and the partially collected addresses
are discarded. -/
theorem capture_failure_semantics (tids : List Nat)
    (capture : Nat → Option (List String)) (regs : Option Regs)
    (mem : Nat → Option Nat) (describeLine : Nat → Nat → String)
    (r : Regs) (fuel : Nat)
    (hrbp : r.rbp ≠ 0) (hfail : mem (r.rbp + 8) = none) :
    captureStackTrace false regs mem describeLine = none ∧
    (captureCStackTraces tids capture).map Prod.fst =
      tids.mergeSort (fun a b => decide (a ≤ b)) ∧
    (∀ tid ∈ tids, (tid, capture tid) ∈ captureCStackTraces tids capture) ∧
    getStackTrace (some r) mem (fuel + 1) = none := by
  refine ⟨rfl, ?_, ?_, ?_⟩
  · unfold captureCStackTraces
    rw [List.map_map]
    have hid : (Prod.fst ∘ fun tid => (tid, capture tid)) = id := rfl
    rw [hid, List.map_id]
  · intro tid htid
    unfold captureCStackTraces
    exact List.mem_map.mpr ⟨tid, by simpa using htid, rfl⟩
  · simp [getStackTrace, walkFrames, hrbp, hfail]

/-- Witness for capture_failure_semantics: two TIDs, every read failing
from rbp = 1. -/
theorem capture_failure_semantics_witness :
    ({ rip := 0, rbp := 1 : Regs }.rbp ≠ 0 ∧ memNone (1 + 8) = none) ∧
    (captureStackTrace false none memNone (fun _ _ => "") = none ∧
     (captureCStackTraces [3, 1] (fun _ => some ["l"])).map Prod.fst =
       [3, 1].mergeSort (fun a b => decide (a ≤ b)) ∧
     (∀ tid ∈ [3, 1],
        (tid, (fun _ => some ["l"] : Nat → Option (List String)) tid) ∈
          captureCStackTraces [3, 1] (fun _ => some ["l"])) ∧
     getStackTrace (some { rip := 0, rbp := 1 }) memNone (31 + 1) = none) :=
  ⟨⟨by decide, rfl⟩,
   capture_failure_semantics [3, 1] (fun _ => some ["l"]) none memNone
     (fun _ _ => "") { rip := 0, rbp := 1 } 31 (by decide) rfl⟩

/-- C7: module cache lookups keyed by mtime — with a real file behind a
non-pseudo path, a cached entry whose recorded mtime equals the observed
one is returned as is (rejections included) with no new loader
construction and no cache change; a differing mtime invalidates the entry
and rebuilds it with exactly one new DWARF load and a freshly determined
PIC classification, recached under the observed mtime. -/
theorem get_module_cache_spec (fs : FsView) (path : String)
    (c : List (String × CachedModule)) (entry : CachedModule) (mt : Option Nat)
    (hbr : startsWithBracket path = false)
    (hmeta : fs.metaView = some (true, mt))
    (hcache : cacheLookup path c = some entry) :
    (entry.mtime = mt → getModule fs path c = (entry.module, c, 0)) ∧
    (entry.mtime ≠ mt → fs.header4 = some elfMagic →
      ∀ tag, fs.loaderTag = some tag →
        getModule fs path c =
          (some { loaderTag := tag, is_pic := fs.objKindDynamic.getD false },
           cacheInsert path
             { module := some { loaderTag := tag, is_pic := fs.objKindDynamic.getD false },
               mtime := mt }
             (cacheErase path c),
           1)) := by
  constructor
  · intro hmt
    simp [getModule, hbr, hmeta, hcache, hmt]
  · intro hmt hheader tag htag
    simp [getModule, hbr, hmeta, hcache, hmt, getModuleRebuild, hheader, htag]

/-- Witness for get_module_cache_spec: a stale cached rejection for
/lib/x.so is rebuilt into a PIC module with one loader construction. -/
theorem get_module_cache_spec_witness :
    getModule
        { metaView := some (true, some 10), header4 := some elfMagic,
          loaderTag := some 7, objKindDynamic := some true }
        "/lib/x.so" [("/lib/x.so", { module := none, mtime := some 9 })] =
      (some { loaderTag := 7, is_pic := true },
       cacheInsert "/lib/x.so"
         { module := some { loaderTag := 7, is_pic := true }, mtime := some 10 }
         (cacheErase "/lib/x.so" [("/lib/x.so", { module := none, mtime := some 9 })]),
       1) :=
  (get_module_cache_spec
      { metaView := some (true, some 10), header4 := some elfMagic,
        loaderTag := some 7, objKindDynamic := some true }
      "/lib/x.so" [("/lib/x.so", { module := none, mtime := some 9 })]
      { module := none, mtime := some 9 } (some 10)
      (by decide) rfl rfl).2 (by decide) rfl 7 rfl

/-- C5 counterexample: with a spawned child still running, the terminate
flag first reads true at the check inside the first 100 ms sleep quantum
(read index 1), and run() returns on the spot — one iteration total, no
final flush iteration after the flag observation, and the child is never
waited. -/
theorem run_sleep_return_counterexample :
    cexSchedule.flagAt 0 = false ∧ cexSchedule.flagAt 1 = true ∧
    cexSchedule.hasChild = true ∧
    runLoop cexSchedule 5 0 0 0 =
      some { iterations := 1, finalFlush := false, childWaited := false,
             earlyReturn := true } := by
  exact ⟨rfl, rfl, rfl, rfl⟩

/-- C5 amended: when the terminate flag (monotone once set) is observed at
the check between iteration and sleep or at the check after the sleep
loop, run() performs one more monitor_iteration and waits on any spawned
child; when it is first observed inside a 100 ms sleep quantum, run()
returns immediately with no further iteration and without waiting on the
child. -/
theorem run_term_paths (sc : RunSchedule) (fuel i k iters : Nat)
    (hmono : ∀ a b, a ≤ b → sc.flagAt a = true → sc.flagAt b = true)
    (htop : (sc.hasTarget && sc.targetGone i) = false)
    (hch : (sc.hasChild && sc.childReaped i) = false) :
    (sc.flagAt k = true →
      runLoop sc (fuel + 1) i k iters =
        some { iterations := iters + 2, finalFlush := true,
               childWaited := sc.hasChild, earlyReturn := false }) ∧
    (∀ k', sc.flagAt k = false → sleepQuanta sc (k + 1) sc.quanta = (true, k') →
      runLoop sc (fuel + 1) i k iters =
        some { iterations := iters + 1, finalFlush := false,
               childWaited := false, earlyReturn := true }) ∧
    (∀ k', sc.flagAt k = false → sleepQuanta sc (k + 1) sc.quanta = (false, k') →
      sc.flagAt k' = true →
      runLoop sc (fuel + 1) i k iters =
        some { iterations := iters + 2, finalFlush := true,
               childWaited := sc.hasChild, earlyReturn := false }) := by
  have htg : (!sc.hasChild && sc.hasTarget && sc.targetGone i) = false := by
    rcases hht : sc.hasTarget with _ | _
    · simp [hht]
    · rcases hgt : sc.targetGone i with _ | _
      · simp [hht, hgt]
      · rw [hht, hgt] at htop
        simp at htop
  refine ⟨?_, ?_, ?_⟩
  · intro hk
    have hk1 : sc.flagAt (k + 1) = true := hmono k (k + 1) (Nat.le_succ k) hk
    simp [runLoop, htop, hch, htg, hk, finishRun, hk1]
  · intro k' hk hsq
    simp [runLoop, htop, hch, htg, hk, hsq]
  · intro k' hk hsq hk'
    have hk1 : sc.flagAt (k' + 1) = true := hmono k' (k' + 1) (Nat.le_succ k') hk'
    simp [runLoop, htop, hch, htg, hk, hsq, hk', finishRun, hk1]

/-- Witness for run_term_paths: flag already set at the first post-pass
check; the final flush runs and the child is waited. -/
theorem run_term_paths_witness :
    runLoop wSchedule 1 0 0 0 =
      some { iterations := 2, finalFlush := true, childWaited := true,
             earlyReturn := false } :=
  (run_term_paths wSchedule 0 0 0 0 (fun _ _ _ h => h) rfl rfl).1 rfl
